import Mathlib

/-!
HypervisorKit C helpers: byte-order primitives and `cpuid`.

A shallow embedding of `Sources/CHypervisorKit/include/CHypervisorKit.h` and of the
copy of its byte-order helpers in `Sources/OnceC/include/OnceC.h`.

* Memory is a list of bytes; a pointer is an index into it.  An access outside
  the list has no defined behaviour in C and is `none` here.
* `uint16_t` / `uint32_t` values are natural numbers; every C conversion to a
  fixed-width type is an explicit reduction modulo `2 ^ w`.
* The preprocessor symbol `__LITTLE_ENDIAN__` is the Boolean parameter `le`
  of each helper: `true` selects the `#if` branch, `false` the `#else` branch.
-/

namespace CHypervisorKit

/-! ## Definitions -/

/-- One `uint8_t` of memory. -/
abbrev uint8_t := Fin 256

/-- The C conversion `(uint8_t)x`. -/
def to_uint8 (x : Nat) : uint8_t := ⟨x % 256, Nat.mod_lt x (by decide)⟩

/-- The C conversion `(uint16_t)x`. -/
def to_uint16 (x : Nat) : Nat := x % 2 ^ 16

/-- The C conversion `(uint32_t)x`. -/
def to_uint32 (x : Nat) : Nat := x % 2 ^ 32

/-- The assignment `bytes[i] = x` on memory `mem`; `none` when `i` is outside `mem`. -/
def poke (mem : List uint8_t) (i : Nat) (x : uint8_t) : Option (List uint8_t) :=
  if i < mem.length then some (mem.set i x) else none

/-- What the `#else` (big-endian) branches of the two 16-bit helpers leave open.
These branches are not well-formed C as written:

* `unaligned_store16` has `bytes[0] = (uint8_t)((value >> 84 & 0xff);`, one closing
  parenthesis short.  It is read as `(uint8_t)((value >> 84) & 0xff)`, like the line
  after it.  The shift count 84 is not below the width of the promoted operand, so C
  gives the shift no value; `shr_wide value 84` stands for whatever it yields.
* `unaligned_load16` starts with `result |= ...` and never declares `result`;
  `result` stands for its content before that first `|=`.

Theorems about these branches hold for every choice of the two fields. -/
structure Unspecified where
  /-- The value of `x >> n` when `n` is not below the width of the promoted `x`. -/
  shr_wide : Nat → Nat → Nat
  /-- The content of `result` before the first `|=` of the `#else` branch of
  `unaligned_load16`. -/
  result : Nat

/-- The reading of the open points where an over-wide shift yields the mathematical
shift and `result` starts at zero. -/
def Unspecified.plain : Unspecified := ⟨fun x n => x >>> n, 0⟩

/-- `unaligned_load32(ptr)`, with `bytes = mem + ptr`. -/
def unaligned_load32 (le : Bool) (mem : List uint8_t) (ptr : Nat) : Option Nat := do
  let b0 ← mem[ptr]?
  let b1 ← mem[ptr + 1]?
  let b2 ← mem[ptr + 2]?
  let b3 ← mem[ptr + 3]?
  if le then
    let result := to_uint32 b0.val
    let result := to_uint32 (result ||| to_uint32 (to_uint32 b1.val <<< 8))
    let result := to_uint32 (result ||| to_uint32 (to_uint32 b2.val <<< 16))
    let result := to_uint32 (result ||| to_uint32 (to_uint32 b3.val <<< 24))
    some result
  else
    let result := to_uint32 (to_uint32 b0.val <<< 24)
    let result := to_uint32 (result ||| to_uint32 (to_uint32 b1.val <<< 16))
    let result := to_uint32 (result ||| to_uint32 (to_uint32 b2.val <<< 8))
    let result := to_uint32 (result ||| to_uint32 b3.val)
    some result

/-- `unaligned_load16(ptr)`, with `bytes = mem + ptr`.  The operands of `<<` and `|`
are promoted to `int`, where the values involved (below `2 ^ 16`) fit; the result of
each `|=` is converted back to `uint16_t`. -/
def unaligned_load16 (le : Bool) (u : Unspecified) (mem : List uint8_t) (ptr : Nat) :
    Option Nat := do
  let b0 ← mem[ptr]?
  let b1 ← mem[ptr + 1]?
  if le then
    let result := to_uint16 b0.val
    let result := to_uint16 (result ||| (to_uint16 b1.val <<< 8))
    some result
  else
    let result := to_uint16 u.result
    let result := to_uint16 (result ||| (to_uint16 b0.val <<< 8))
    let result := to_uint16 (result ||| to_uint16 b1.val)
    some result

/-- `unaligned_store32(ptr, value)`, with `bytes = mem + ptr`; returns the memory
after the four assignments. -/
def unaligned_store32 (le : Bool) (mem : List uint8_t) (ptr : Nat) (value : Nat) :
    Option (List uint8_t) := do
  if le then
    let m ← poke mem ptr (to_uint8 (value &&& 0xff))
    let m ← poke m (ptr + 1) (to_uint8 ((value >>> 8) &&& 0xff))
    let m ← poke m (ptr + 2) (to_uint8 ((value >>> 16) &&& 0xff))
    poke m (ptr + 3) (to_uint8 ((value >>> 24) &&& 0xff))
  else
    let m ← poke mem ptr (to_uint8 ((value >>> 24) &&& 0xff))
    let m ← poke m (ptr + 1) (to_uint8 ((value >>> 16) &&& 0xff))
    let m ← poke m (ptr + 2) (to_uint8 ((value >>> 8) &&& 0xff))
    poke m (ptr + 3) (to_uint8 ((value >>> 0) &&& 0xff))

/-- `unaligned_store16(ptr, value)`, with `bytes = mem + ptr`; returns the memory
after the two assignments. -/
def unaligned_store16 (le : Bool) (u : Unspecified) (mem : List uint8_t) (ptr : Nat)
    (value : Nat) : Option (List uint8_t) := do
  if le then
    let m ← poke mem ptr (to_uint8 (value &&& 0xff))
    poke m (ptr + 1) (to_uint8 ((value >>> 8) &&& 0xff))
  else
    let m ← poke mem ptr (to_uint8 (u.shr_wide value 84 &&& 0xff))
    poke m (ptr + 1) (to_uint8 ((value >>> 25) &&& 0xff))

/-- The registers `eax`, `ebx`, `ecx`, `edx` as the `cpuid` instruction leaves them. -/
structure Registers where
  eax : Nat
  ebx : Nat
  ecx : Nat
  edx : Nat

/-- Each of the four registers holds a 32-bit value. -/
def Registers.is32 (r : Registers) : Prop :=
  r.eax < 2 ^ 32 ∧ r.ebx < 2 ^ 32 ∧ r.ecx < 2 ^ 32 ∧ r.edx < 2 ^ 32

/-- `union cpuid_result` as its object representation: the 33 bytes of the member
`bytes`.  The member `regs` overlays bytes 0..15, `eax` at offset 0, `ebx` at 4, `ecx`
at 8 and `edx` at 12, each stored least significant byte first as on the x86 hosts
that have the `cpuid` instruction.  The padding that follows `bytes` is never accessed
and is left out. -/
structure cpuid_result where
  bytes : List uint8_t
  size : bytes.length = 33

/-- The 32-bit store `*(uint32_t *)(mem + off) = v` of the host. -/
def store_field32 (mem : List uint8_t) (off v : Nat) : List uint8_t :=
  (((mem.set off (to_uint8 v)).set (off + 1) (to_uint8 (v >>> 8))).set (off + 2)
    (to_uint8 (v >>> 16))).set (off + 3) (to_uint8 (v >>> 24))

/-- The four bytes that `store_field32` writes for `v`, in address order. -/
def reg_bytes (v : Nat) : List uint8_t :=
  [to_uint8 v, to_uint8 (v >>> 8), to_uint8 (v >>> 16), to_uint8 (v >>> 24)]

/-- The 32-bit load `*(uint32_t *)(mem + off)` of the host. -/
def load_field32 (mem : List uint8_t) (off : Nat) : Nat :=
  (mem.getD off 0).val + 2 ^ 8 * (mem.getD (off + 1) 0).val +
    2 ^ 16 * (mem.getD (off + 2) 0).val + 2 ^ 24 * (mem.getD (off + 3) 0).val

/-- The value of `result->regs`. -/
def cpuid_result.regs (r : cpuid_result) : Registers :=
  ⟨load_field32 r.bytes 0, load_field32 r.bytes 4, load_field32 r.bytes 8,
    load_field32 r.bytes 12⟩

/-- The assignment to the `uint32_t` member of `result->regs` at offset `off`. -/
def cpuid_result.set_regs (r : cpuid_result) (off v : Nat) : cpuid_result :=
  ⟨store_field32 r.bytes off v, by simp [store_field32, r.size]⟩

/-- The assignment `result->regs.eax = v`. -/
def cpuid_result.set_regs_eax (r : cpuid_result) (v : Nat) : cpuid_result := r.set_regs 0 v

/-- The assignment `result->regs.ebx = v`. -/
def cpuid_result.set_regs_ebx (r : cpuid_result) (v : Nat) : cpuid_result := r.set_regs 4 v

/-- The assignment `result->regs.ecx = v`. -/
def cpuid_result.set_regs_ecx (r : cpuid_result) (v : Nat) : cpuid_result := r.set_regs 8 v

/-- The assignment `result->regs.edx = v`. -/
def cpuid_result.set_regs_edx (r : cpuid_result) (v : Nat) : cpuid_result := r.set_regs 12 v

/-- The assignment `result->bytes[i] = x`. -/
def cpuid_result.set_bytes (r : cpuid_result) (i : Nat) (x : uint8_t) : cpuid_result :=
  ⟨r.bytes.set i x, by simp [r.size]⟩

/-- `cpuid(function, result)`.  `insn` is the `cpuid` instruction of the `asm`
statement: the four registers it leaves when run with `function` in `eax`.  The value
is the union `*result` after the call; the pointer the C function returns is to the
member `bytes` of that union. -/
def cpuid (insn : Nat → Registers) (function : Nat) (result : cpuid_result) : cpuid_result :=
  let eax := to_uint32 (insn function).eax
  let ebx := to_uint32 (insn function).ebx
  let ecx := to_uint32 (insn function).ecx
  let edx := to_uint32 (insn function).edx
  let result := result.set_regs_eax eax
  let result := result.set_regs_ebx ebx
  let result :=
    if function = 0 then
      (result.set_regs_ecx edx).set_regs_edx ecx
    else
      (result.set_regs_ecx ecx).set_regs_edx edx
  result.set_bytes 32 0

end CHypervisorKit

/-! `Sources/OnceC/include/OnceC.h`: the second copy of the byte-order helpers, embedded
from its own text over the same model of memory and of the C conversions. -/

namespace OnceC

open CHypervisorKit (uint8_t to_uint8 to_uint16 to_uint32 poke Unspecified)

/-- `unaligned_load32(ptr)` of `OnceC.h`, with `bytes = mem + ptr`. -/
def unaligned_load32 (le : Bool) (mem : List uint8_t) (ptr : Nat) : Option Nat := do
  let b0 ← mem[ptr]?
  let b1 ← mem[ptr + 1]?
  let b2 ← mem[ptr + 2]?
  let b3 ← mem[ptr + 3]?
  if le then
    let result := to_uint32 b0.val
    let result := to_uint32 (result ||| to_uint32 (to_uint32 b1.val <<< 8))
    let result := to_uint32 (result ||| to_uint32 (to_uint32 b2.val <<< 16))
    let result := to_uint32 (result ||| to_uint32 (to_uint32 b3.val <<< 24))
    some result
  else
    let result := to_uint32 (to_uint32 b0.val <<< 24)
    let result := to_uint32 (result ||| to_uint32 (to_uint32 b1.val <<< 16))
    let result := to_uint32 (result ||| to_uint32 (to_uint32 b2.val <<< 8))
    let result := to_uint32 (result ||| to_uint32 b3.val)
    some result

/-- `unaligned_load16(ptr)` of `OnceC.h`, with `bytes = mem + ptr`.  Its `#else` branch
has the same undeclared `result` as the copy in `CHypervisorKit.h`. -/
def unaligned_load16 (le : Bool) (u : Unspecified) (mem : List uint8_t) (ptr : Nat) :
    Option Nat := do
  let b0 ← mem[ptr]?
  let b1 ← mem[ptr + 1]?
  if le then
    let result := to_uint16 b0.val
    let result := to_uint16 (result ||| (to_uint16 b1.val <<< 8))
    some result
  else
    let result := to_uint16 u.result
    let result := to_uint16 (result ||| (to_uint16 b0.val <<< 8))
    let result := to_uint16 (result ||| to_uint16 b1.val)
    some result

/-- `unaligned_store32(ptr, value)` of `OnceC.h`, with `bytes = mem + ptr`. -/
def unaligned_store32 (le : Bool) (mem : List uint8_t) (ptr : Nat) (value : Nat) :
    Option (List uint8_t) := do
  if le then
    let m ← poke mem ptr (to_uint8 (value &&& 0xff))
    let m ← poke m (ptr + 1) (to_uint8 ((value >>> 8) &&& 0xff))
    let m ← poke m (ptr + 2) (to_uint8 ((value >>> 16) &&& 0xff))
    poke m (ptr + 3) (to_uint8 ((value >>> 24) &&& 0xff))
  else
    let m ← poke mem ptr (to_uint8 ((value >>> 24) &&& 0xff))
    let m ← poke m (ptr + 1) (to_uint8 ((value >>> 16) &&& 0xff))
    let m ← poke m (ptr + 2) (to_uint8 ((value >>> 8) &&& 0xff))
    poke m (ptr + 3) (to_uint8 ((value >>> 0) &&& 0xff))

/-- `unaligned_store16(ptr, value)` of `OnceC.h`, with `bytes = mem + ptr`.  Its `#else`
branch has the same shift counts 84 and 25 and the same missing parenthesis as the copy
in `CHypervisorKit.h`. -/
def unaligned_store16 (le : Bool) (u : Unspecified) (mem : List uint8_t) (ptr : Nat)
    (value : Nat) : Option (List uint8_t) := do
  if le then
    let m ← poke mem ptr (to_uint8 (value &&& 0xff))
    poke m (ptr + 1) (to_uint8 ((value >>> 8) &&& 0xff))
  else
    let m ← poke mem ptr (to_uint8 (u.shr_wide value 84 &&& 0xff))
    poke m (ptr + 1) (to_uint8 ((value >>> 25) &&& 0xff))

end OnceC

namespace CHypervisorKit

/-! ## Theorems -/

theorem poke_of_lt {mem : List uint8_t} {i : Nat} (x : uint8_t) (h : i < mem.length) :
    poke mem i x = some (mem.set i x) := by
  simp [poke, h]

theorem and_ff (x : Nat) : x &&& 0xff = x % 256 :=
  Nat.and_pow_two_sub_one_eq_mod x 8

theorem to_uint32_of_lt {x : Nat} (h : x < 2 ^ 32) : to_uint32 x = x :=
  Nat.mod_eq_of_lt h

theorem to_uint16_of_lt {x : Nat} (h : x < 2 ^ 16) : to_uint16 x = x :=
  Nat.mod_eq_of_lt h

theorem to_uint8_val (x : Nat) : (to_uint8 x).val = x % 256 := rfl

/-- Bitwise or is addition when one operand lies below `2 ^ k` and the other is a
multiple of `2 ^ k`. -/
theorem or_eq_add (y x k : Nat) (hx : x < 2 ^ k) (hy : y % 2 ^ k = 0) : y ||| x = y + x := by
  have hq : 2 ^ k * (y / 2 ^ k) = y := by
    have := Nat.div_add_mod y (2 ^ k)
    omega
  rw [← hq]
  exact (Nat.mul_add_lt_is_or hx _).symm

theorem shl32 (b k : Nat) (h : 2 ^ k * b < 2 ^ 32) (hk : b < 2 ^ 32) :
    to_uint32 (to_uint32 b <<< k) = 2 ^ k * b := by
  rw [to_uint32_of_lt hk, Nat.shiftLeft_eq, Nat.mul_comm, to_uint32_of_lt h]

theorem or32 (y x k : Nat) (hx : x < 2 ^ k) (hy : y % 2 ^ k = 0) (h : y + x < 2 ^ 32) :
    to_uint32 (y ||| x) = y + x := by
  rw [or_eq_add y x k hx hy, to_uint32_of_lt h]

theorem join32_le {a b c d : Nat} (ha : a < 256) (hb : b < 256) (hc : c < 256)
    (hd : d < 256) :
    to_uint32 (to_uint32 (to_uint32 (to_uint32 a ||| to_uint32 (to_uint32 b <<< 8)) |||
      to_uint32 (to_uint32 c <<< 16)) ||| to_uint32 (to_uint32 d <<< 24)) =
      a + 2 ^ 8 * b + 2 ^ 16 * c + 2 ^ 24 * d := by
  rw [shl32 b 8 (by omega) (by omega), shl32 c 16 (by omega) (by omega),
    shl32 d 24 (by omega) (by omega), to_uint32_of_lt (x := a) (by omega),
    Nat.or_comm a, or32 (2 ^ 8 * b) a 8 (by omega) (by omega) (by omega),
    Nat.or_comm _ (2 ^ 16 * c), or32 (2 ^ 16 * c) _ 16 (by omega) (by omega) (by omega),
    Nat.or_comm _ (2 ^ 24 * d), or32 (2 ^ 24 * d) _ 24 (by omega) (by omega) (by omega)]
  omega

theorem join32_be {a b c d : Nat} (ha : a < 256) (hb : b < 256) (hc : c < 256)
    (hd : d < 256) :
    to_uint32 (to_uint32 (to_uint32 (to_uint32 (to_uint32 a <<< 24) |||
      to_uint32 (to_uint32 b <<< 16)) ||| to_uint32 (to_uint32 c <<< 8)) ||| to_uint32 d) =
      2 ^ 24 * a + 2 ^ 16 * b + 2 ^ 8 * c + d := by
  rw [shl32 a 24 (by omega) (by omega), shl32 b 16 (by omega) (by omega),
    shl32 c 8 (by omega) (by omega), to_uint32_of_lt (x := d) (by omega),
    or32 (2 ^ 24 * a) _ 24 (by omega) (by omega) (by omega),
    or32 (2 ^ 24 * a + 2 ^ 16 * b) _ 16 (by omega) (by omega) (by omega),
    or32 (2 ^ 24 * a + 2 ^ 16 * b + 2 ^ 8 * c) _ 8 (by omega) (by omega) (by omega)]

theorem join16_le {a b : Nat} (ha : a < 256) (hb : b < 256) :
    to_uint16 (to_uint16 a ||| (to_uint16 b <<< 8)) = a + 2 ^ 8 * b := by
  rw [to_uint16_of_lt (x := a) (by omega), to_uint16_of_lt (x := b) (by omega),
    Nat.shiftLeft_eq, Nat.or_comm, or_eq_add (b * 2 ^ 8) a 8 (by omega) (by omega),
    to_uint16_of_lt (by omega)]
  omega

theorem store32_eq (le : Bool) {mem : List uint8_t} {ptr : Nat} (value : Nat)
    (h : ptr + 4 ≤ mem.length) :
    unaligned_store32 le mem ptr value =
      some (if le then
        (((mem.set ptr (to_uint8 (value % 256))).set (ptr + 1)
          (to_uint8 (value / 2 ^ 8 % 256))).set (ptr + 2)
          (to_uint8 (value / 2 ^ 16 % 256))).set (ptr + 3)
          (to_uint8 (value / 2 ^ 24 % 256))
      else
        (((mem.set ptr (to_uint8 (value / 2 ^ 24 % 256))).set (ptr + 1)
          (to_uint8 (value / 2 ^ 16 % 256))).set (ptr + 2)
          (to_uint8 (value / 2 ^ 8 % 256))).set (ptr + 3)
          (to_uint8 (value % 256))) := by
  have h0 : ptr < mem.length := by omega
  have h1 : ptr + 1 < mem.length := by omega
  have h2 : ptr + 2 < mem.length := by omega
  have h3 : ptr + 3 < mem.length := by omega
  cases le <;>
    simp [unaligned_store32, poke, h0, h1, h2, h3, and_ff, Nat.shiftRight_eq_div_pow]

theorem store16_le_eq (u : Unspecified) {mem : List uint8_t} {ptr : Nat} (value : Nat)
    (h : ptr + 2 ≤ mem.length) :
    unaligned_store16 true u mem ptr value =
      some ((mem.set ptr (to_uint8 (value % 256))).set (ptr + 1)
        (to_uint8 (value / 2 ^ 8 % 256))) := by
  have h0 : ptr < mem.length := by omega
  have h1 : ptr + 1 < mem.length := by omega
  simp [unaligned_store16, poke, h0, h1, and_ff, Nat.shiftRight_eq_div_pow]

theorem load32_eq (le : Bool) {mem : List uint8_t} {ptr : Nat} {a b c d : uint8_t}
    (h0 : mem[ptr]? = some a) (h1 : mem[ptr + 1]? = some b)
    (h2 : mem[ptr + 2]? = some c) (h3 : mem[ptr + 3]? = some d) :
    unaligned_load32 le mem ptr =
      some (if le then a.val + 2 ^ 8 * b.val + 2 ^ 16 * c.val + 2 ^ 24 * d.val
        else 2 ^ 24 * a.val + 2 ^ 16 * b.val + 2 ^ 8 * c.val + d.val) := by
  cases le
  · simp only [unaligned_load32, h0, h1, h2, h3, Option.bind_eq_bind, Option.some_bind,
      join32_be a.isLt b.isLt c.isLt d.isLt]
    rfl
  · simp only [unaligned_load32, h0, h1, h2, h3, Option.bind_eq_bind, Option.some_bind,
      join32_le a.isLt b.isLt c.isLt d.isLt]
    rfl

theorem load16_le_eq (u : Unspecified) {mem : List uint8_t} {ptr : Nat} {a b : uint8_t}
    (h0 : mem[ptr]? = some a) (h1 : mem[ptr + 1]? = some b) :
    unaligned_load16 true u mem ptr = some (a.val + 2 ^ 8 * b.val) := by
  simp only [unaligned_load16, h0, h1, Option.bind_eq_bind, Option.some_bind,
    join16_le a.isLt b.isLt]
  rfl

/-- C1: in the little-endian branch, for every 32-bit `v`, every buffer `b` and every
offset `p` with `p + 4 ≤ length b`, `unaligned_store32` at `p` succeeds and
`unaligned_load32` at `p` of the resulting buffer returns exactly `v`. -/
theorem unaligned_load32_store32_le (b : List uint8_t) (p v : Nat) (hv : v < 2 ^ 32)
    (hp : p + 4 ≤ b.length) :
    ∃ b', unaligned_store32 true b p v = some b' ∧ unaligned_load32 true b' p = some v := by
  refine ⟨_, store32_eq true v hp, ?_⟩
  rw [load32_eq true (a := to_uint8 (v % 256)) (b := to_uint8 (v / 2 ^ 8 % 256))
    (c := to_uint8 (v / 2 ^ 16 % 256)) (d := to_uint8 (v / 2 ^ 24 % 256))]
  · simp only [to_uint8_val, if_true, Option.some.injEq]
    omega
  all_goals simp [List.getElem?_set]
  all_goals omega

theorem unaligned_load32_store32_le_witness :
    ∃ b', unaligned_store32 true [0, 0, 0, 0, 0, 0] 1 0xdeadbeef = some b' ∧
      unaligned_load32 true b' 1 = some 0xdeadbeef :=
  unaligned_load32_store32_le [0, 0, 0, 0, 0, 0] 1 0xdeadbeef (by decide) (by decide)

/-- C2: in the little-endian branch, for every 16-bit `v`, every buffer `b` and every
offset `p` with `p + 2 ≤ length b`, `unaligned_store16` at `p` succeeds and
`unaligned_load16` at `p` of the resulting buffer returns exactly `v`. -/
theorem unaligned_load16_store16_le (u : Unspecified) (b : List uint8_t) (p v : Nat)
    (hv : v < 2 ^ 16) (hp : p + 2 ≤ b.length) :
    ∃ b', unaligned_store16 true u b p v = some b' ∧
      unaligned_load16 true u b' p = some v := by
  refine ⟨_, store16_le_eq u v hp, ?_⟩
  rw [load16_le_eq u (a := to_uint8 (v % 256)) (b := to_uint8 (v / 2 ^ 8 % 256))]
  · simp only [to_uint8_val, Option.some.injEq]
    omega
  all_goals simp [List.getElem?_set]
  all_goals omega

theorem unaligned_load16_store16_le_witness :
    ∃ b', unaligned_store16 true Unspecified.plain [7, 7, 7, 7, 7] 3 0xbeef = some b' ∧
      unaligned_load16 true Unspecified.plain b' 3 = some 0xbeef :=
  unaligned_load16_store16_le Unspecified.plain [7, 7, 7, 7, 7] 3 0xbeef (by decide)
    (by decide)

/-- C8: in the big-endian branch, for every 32-bit `v`, every buffer `b` and every
offset `p` with `p + 4 ≤ length b`, `unaligned_store32` at `p` succeeds and
`unaligned_load32` at `p` of the resulting buffer returns exactly `v`. -/
theorem unaligned_load32_store32_be (b : List uint8_t) (p v : Nat) (hv : v < 2 ^ 32)
    (hp : p + 4 ≤ b.length) :
    ∃ b', unaligned_store32 false b p v = some b' ∧
      unaligned_load32 false b' p = some v := by
  refine ⟨_, store32_eq false v hp, ?_⟩
  rw [load32_eq false (a := to_uint8 (v / 2 ^ 24 % 256))
    (b := to_uint8 (v / 2 ^ 16 % 256)) (c := to_uint8 (v / 2 ^ 8 % 256))
    (d := to_uint8 (v % 256))]
  · simp only [to_uint8_val, Bool.false_eq_true, if_false, Option.some.injEq]
    omega
  all_goals simp [List.getElem?_set]
  all_goals omega

theorem unaligned_load32_store32_be_witness :
    ∃ b', unaligned_store32 false [0, 0, 0, 0, 0, 0] 1 0xdeadbeef = some b' ∧
      unaligned_load32 false b' 1 = some 0xdeadbeef :=
  unaligned_load32_store32_be [0, 0, 0, 0, 0, 0] 1 0xdeadbeef (by decide) (by decide)

/-- C9: in the little-endian branch the helpers are exactly the little-endian encoding.
With four bytes available at `p`, `unaligned_load32` returns
`b[p] + 2^8 * b[p+1] + 2^16 * b[p+2] + 2^24 * b[p+3]` and `unaligned_store32` leaves
`(v >> 8*i) & 0xff` at `b[p+i]` for `i < 4`; with two bytes available,
`unaligned_load16` returns `b[p] + 2^8 * b[p+1]` and `unaligned_store16` leaves
`(v >> 8*i) & 0xff` at `b[p+i]` for `i < 2`. -/
theorem little_endian_encoding (u : Unspecified) (b : List uint8_t) (p v w : Nat) :
    (∀ h : p + 4 ≤ b.length,
      unaligned_load32 true b p =
        some (b[p].val + 2 ^ 8 * b[p + 1].val + 2 ^ 16 * b[p + 2].val +
          2 ^ 24 * b[p + 3].val) ∧
      ∃ b', unaligned_store32 true b p v = some b' ∧
        ∀ i, i < 4 → b'[p + i]?.map Fin.val = some ((v >>> (8 * i)) &&& 0xff)) ∧
    (∀ h : p + 2 ≤ b.length,
      unaligned_load16 true u b p = some (b[p].val + 2 ^ 8 * b[p + 1].val) ∧
      ∃ b', unaligned_store16 true u b p w = some b' ∧
        ∀ i, i < 2 → b'[p + i]?.map Fin.val = some ((w >>> (8 * i)) &&& 0xff)) := by
  refine ⟨fun h => ⟨?_, _, store32_eq true v h, ?_⟩, fun h => ⟨?_, _, store16_le_eq u w h, ?_⟩⟩
  · rw [load32_eq true (List.getElem?_eq_getElem _) (List.getElem?_eq_getElem _)
      (List.getElem?_eq_getElem _) (List.getElem?_eq_getElem _)]
    rfl
  · intro i hi
    have h0 : p < b.length := by omega
    have h1 : p + 1 < b.length := by omega
    have h2 : p + 2 < b.length := by omega
    have h3 : p + 3 < b.length := by omega
    interval_cases i <;>
      simp [List.getElem?_set, h0, h1, h2, h3, and_ff, Nat.shiftRight_eq_div_pow,
        to_uint8_val]
  · rw [load16_le_eq u (List.getElem?_eq_getElem _) (List.getElem?_eq_getElem _)]
  · intro i hi
    have h0 : p < b.length := by omega
    have h1 : p + 1 < b.length := by omega
    interval_cases i <;>
      simp [List.getElem?_set, h0, h1, and_ff, Nat.shiftRight_eq_div_pow, to_uint8_val]

theorem little_endian_encoding_witness :
    (unaligned_load32 true [1, 2, 3, 4, 5] 1 = some 0x05040302 ∧
      ∃ b', unaligned_store32 true [1, 2, 3, 4, 5] 1 0x0a0b0c0d = some b' ∧
        ∀ i, i < 4 → b'[1 + i]?.map Fin.val = some ((0x0a0b0c0d >>> (8 * i)) &&& 0xff)) ∧
    (unaligned_load16 true Unspecified.plain [1, 2, 3, 4, 5] 1 = some 0x0302 ∧
      ∃ b', unaligned_store16 true Unspecified.plain [1, 2, 3, 4, 5] 1 0x0e0f = some b' ∧
        ∀ i, i < 2 → b'[1 + i]?.map Fin.val = some ((0x0e0f >>> (8 * i)) &&& 0xff)) :=
  ⟨(little_endian_encoding Unspecified.plain [1, 2, 3, 4, 5] 1 0x0a0b0c0d 0x0e0f).1 (by decide),
    (little_endian_encoding Unspecified.plain [1, 2, 3, 4, 5] 1 0x0a0b0c0d 0x0e0f).2 (by decide)⟩

/-- The low byte of `x | (y << 8)` is the low byte of `x`. -/
theorem or_shl_mod (a b : Nat) : (a ||| (b <<< 8)) % 2 ^ 8 = a % 2 ^ 8 := by
  apply Nat.eq_of_testBit_eq
  intro i
  simp only [Nat.testBit_mod_two_pow, Nat.testBit_or, Nat.testBit_shiftLeft]
  by_cases h : i < 8
  · have : ¬ (i ≥ 8) := by omega
    simp [h, this]
  · simp [h]

/-- The value the big-endian branch of `unaligned_load16` returns has the low byte of
the initial content of `result` whenever the second byte read is zero. -/
theorem load16_be_low (r x : Nat) :
    to_uint16 (to_uint16 (to_uint16 r ||| (to_uint16 x <<< 8)) ||| to_uint16 0) % 2 ^ 8 =
      r % 2 ^ 8 := by
  have e : (2 : Nat) ^ 16 = 2 ^ 8 * 2 ^ 8 := by norm_num
  have h2 : ∀ z : Nat, z % 2 ^ 16 % 2 ^ 8 = z % 2 ^ 8 := fun z => by
    rw [e]
    exact Nat.mod_mul_right_mod z _ _
  simp only [to_uint16, Nat.zero_mod, Nat.or_zero, h2, or_shl_mod]

/-- C6 (code defect): in the big-endian branch `unaligned_store16` does not write the
value in big-endian order.  Storing `0x1234` leaves `0` in `bytes[1]`, where the low
byte `0x34` belongs, whatever the over-wide shift of the line before yields; with that
shift read as the mathematical shift, `bytes[0]` is `0` as well, not the high byte
`0x12`. -/
theorem unaligned_store16_be_loses_low_byte (u : Unspecified) :
    unaligned_store16 false u [0xaa, 0xbb] 0 0x1234 =
        some [to_uint8 (u.shr_wide 0x1234 84 &&& 0xff), 0] ∧
      (0 : uint8_t) ≠ to_uint8 (0x1234 &&& 0xff) ∧
      unaligned_store16 false Unspecified.plain [0xaa, 0xbb] 0 0x1234 = some [0, 0] ∧
      (0 : uint8_t) ≠ to_uint8 ((0x1234 >>> 8) &&& 0xff) :=
  ⟨rfl, by decide, by decide, by decide⟩

/-- C7 (code defect): in the big-endian branch the 16-bit helpers do not round-trip.
With the over-wide shift read as the mathematical shift and `result` starting at zero,
storing `0x1234` and loading it back returns `0`.  Under every reading of the open
points, at least one of the values `0x1234` and `0x1235` fails to come back, since the
low byte of the loaded value does not depend on the stored value. -/
theorem unaligned_load16_store16_be_fails (u : Unspecified) :
    (∃ m, unaligned_store16 false Unspecified.plain [0, 0] 0 0x1234 = some m ∧
      unaligned_load16 false Unspecified.plain m 0 = some 0) ∧
    ∃ m r m' r',
      unaligned_store16 false u [0, 0] 0 0x1234 = some m ∧
      unaligned_load16 false u m 0 = some r ∧
      unaligned_store16 false u [0, 0] 0 0x1235 = some m' ∧
      unaligned_load16 false u m' 0 = some r' ∧
      (r ≠ 0x1234 ∨ r' ≠ 0x1235) := by
  refine ⟨⟨_, rfl, by decide⟩, _, _, _, _, rfl, rfl, rfl, rfl, ?_⟩
  have k1 := load16_be_low u.result (to_uint8 (u.shr_wide 0x1234 84 &&& 0xff)).val
  have k2 := load16_be_low u.result (to_uint8 (u.shr_wide 0x1235 84 &&& 0xff)).val
  by_contra hc
  rw [not_or, not_not, not_not] at hc
  obtain ⟨h1, h2⟩ := hc
  erw [h1] at k1
  erw [h2] at k2
  omega

/-- The bytes of the union after `cpuid`: the four registers in the order stored, then
bytes 16..31 as before the call, then the NUL at index 32. -/
theorem cpuid_bytes (insn : Nat → Registers) (function : Nat) (result : cpuid_result) :
    (cpuid insn function result).bytes =
      reg_bytes (to_uint32 (insn function).eax) ++
        (reg_bytes (to_uint32 (insn function).ebx) ++
          (reg_bytes
              (to_uint32 (if function = 0 then (insn function).edx else (insn function).ecx)) ++
            (reg_bytes
                (to_uint32
                  (if function = 0 then (insn function).ecx else (insn function).edx)) ++
              (result.bytes.drop 16).set 16 0))) := by
  obtain ⟨l, hl⟩ := result
  iterate 16 (rcases l with _ | ⟨x, l⟩; · simp at hl)
  simp only [cpuid, cpuid_result.set_bytes, cpuid_result.set_regs_eax,
    cpuid_result.set_regs_ebx, cpuid_result.set_regs_ecx, cpuid_result.set_regs_edx,
    cpuid_result.set_regs, store_field32, reg_bytes]
  split <;> simp

/-- Reading back the four bytes of a 32-bit value gives the value. -/
theorem join_reg_bytes {v : Nat} (h : v < 2 ^ 32) :
    (to_uint8 (to_uint32 v)).val + 256 * (to_uint8 (to_uint32 v >>> 8)).val +
      65536 * (to_uint8 (to_uint32 v >>> 16)).val +
      16777216 * (to_uint8 (to_uint32 v >>> 24)).val = v := by
  simp only [to_uint8_val, to_uint32_of_lt h, Nat.shiftRight_eq_div_pow]
  omega

/-- The registers read from the union after `cpuid`. -/
theorem cpuid_regs (insn : Nat → Registers) (function : Nat) (result : cpuid_result)
    (h : (insn function).is32) :
    (cpuid insn function result).regs =
      if function = 0 then
        ⟨(insn function).eax, (insn function).ebx, (insn function).edx, (insn function).ecx⟩
      else insn function := by
  obtain ⟨ha, hb, hc, hd⟩ := h
  simp only [cpuid_result.regs, cpuid_bytes, load_field32, reg_bytes]
  by_cases hf : function = 0
  · simp only [hf, if_true] at ha hb hc hd ⊢
    simp [join_reg_bytes ha, join_reg_bytes hb, join_reg_bytes hc, join_reg_bytes hd]
  · simp only [hf, if_false]
    simp [join_reg_bytes ha, join_reg_bytes hb, join_reg_bytes hc, join_reg_bytes hd]

/-- C3: for function 0, `cpuid` stores the raw registers with `ecx` and `edx`
exchanged: after the call `regs.eax` is raw `eax`, `regs.ebx` is raw `ebx`, `regs.ecx`
is raw `edx` and `regs.edx` is raw `ecx`. -/
theorem cpuid_function_zero_swaps (insn : Nat → Registers) (result : cpuid_result)
    (h : (insn 0).is32) :
    (cpuid insn 0 result).regs.eax = (insn 0).eax ∧
      (cpuid insn 0 result).regs.ebx = (insn 0).ebx ∧
      (cpuid insn 0 result).regs.ecx = (insn 0).edx ∧
      (cpuid insn 0 result).regs.edx = (insn 0).ecx := by
  rw [cpuid_regs insn 0 result h]
  exact ⟨rfl, rfl, rfl, rfl⟩

theorem cpuid_function_zero_swaps_witness :
    (cpuid (fun _ => ⟨0x16, 0x756e6547, 0x6c65746e, 0x49656e69⟩) 0
        ⟨List.replicate 33 0, rfl⟩).regs.eax = 0x16 ∧
      (cpuid (fun _ => ⟨0x16, 0x756e6547, 0x6c65746e, 0x49656e69⟩) 0
        ⟨List.replicate 33 0, rfl⟩).regs.ebx = 0x756e6547 ∧
      (cpuid (fun _ => ⟨0x16, 0x756e6547, 0x6c65746e, 0x49656e69⟩) 0
        ⟨List.replicate 33 0, rfl⟩).regs.ecx = 0x49656e69 ∧
      (cpuid (fun _ => ⟨0x16, 0x756e6547, 0x6c65746e, 0x49656e69⟩) 0
        ⟨List.replicate 33 0, rfl⟩).regs.edx = 0x6c65746e :=
  cpuid_function_zero_swaps (fun _ => ⟨0x16, 0x756e6547, 0x6c65746e, 0x49656e69⟩)
    ⟨List.replicate 33 0, rfl⟩ ⟨by decide, by decide, by decide, by decide⟩

/-- C4: for every function code other than 0, `cpuid` keeps the register order: after
the call `regs.eax`, `regs.ebx`, `regs.ecx` and `regs.edx` are raw `eax`, `ebx`, `ecx`
and `edx`. -/
theorem cpuid_function_nonzero_keeps_order (insn : Nat → Registers) (function : Nat)
    (result : cpuid_result) (hf : function ≠ 0) (h : (insn function).is32) :
    (cpuid insn function result).regs.eax = (insn function).eax ∧
      (cpuid insn function result).regs.ebx = (insn function).ebx ∧
      (cpuid insn function result).regs.ecx = (insn function).ecx ∧
      (cpuid insn function result).regs.edx = (insn function).edx := by
  rw [cpuid_regs insn function result h, if_neg hf]
  exact ⟨rfl, rfl, rfl, rfl⟩

theorem cpuid_function_nonzero_keeps_order_witness :
    (cpuid (fun _ => ⟨0x000906ea, 0x00100800, 0x7ffafbff, 0xbfebfbff⟩) 1
        ⟨List.replicate 33 0xff, rfl⟩).regs.eax = 0x000906ea ∧
      (cpuid (fun _ => ⟨0x000906ea, 0x00100800, 0x7ffafbff, 0xbfebfbff⟩) 1
        ⟨List.replicate 33 0xff, rfl⟩).regs.ebx = 0x00100800 ∧
      (cpuid (fun _ => ⟨0x000906ea, 0x00100800, 0x7ffafbff, 0xbfebfbff⟩) 1
        ⟨List.replicate 33 0xff, rfl⟩).regs.ecx = 0x7ffafbff ∧
      (cpuid (fun _ => ⟨0x000906ea, 0x00100800, 0x7ffafbff, 0xbfebfbff⟩) 1
        ⟨List.replicate 33 0xff, rfl⟩).regs.edx = 0xbfebfbff :=
  cpuid_function_nonzero_keeps_order
    (fun _ => ⟨0x000906ea, 0x00100800, 0x7ffafbff, 0xbfebfbff⟩) 1
    ⟨List.replicate 33 0xff, rfl⟩ (by decide) ⟨by decide, by decide, by decide, by decide⟩

/-- Byte `k` of a stored register, as a number. -/
theorem reg_byte_val (v k : Nat) (hk : k < 4) :
    (to_uint8 (to_uint32 v >>> (8 * k))).val = v / 2 ^ (8 * k) % 256 := by
  simp only [to_uint8_val, to_uint32, Nat.shiftRight_eq_div_pow]
  interval_cases k <;> omega

/-- A stored register byte is not NUL when the corresponding byte of the register is
not zero. -/
theorem reg_byte_ne_zero (v k : Nat) (hk : k < 4) (h : v / 2 ^ (8 * k) % 256 ≠ 0) :
    to_uint8 (to_uint32 v >>> (8 * k)) ≠ 0 := by
  intro hz
  apply h
  rw [← reg_byte_val v k hk, hz]
  rfl

/-- C10: on a little-endian host, after `cpuid` with function 0 the bytes view holds
raw `eax` in `bytes[0..3]`, then the vendor identifier in string order: the
little-endian bytes of raw `ebx` in `bytes[4..7]`, of raw `edx` in `bytes[8..11]` and of
raw `ecx` in `bytes[12..15]`. -/
theorem cpuid_function_zero_bytes (insn : Nat → Registers) (result : cpuid_result) :
    ((cpuid insn 0 result).bytes.take 16).map Fin.val =
      [(insn 0).eax % 256, (insn 0).eax / 2 ^ 8 % 256, (insn 0).eax / 2 ^ 16 % 256,
        (insn 0).eax / 2 ^ 24 % 256,
        (insn 0).ebx % 256, (insn 0).ebx / 2 ^ 8 % 256, (insn 0).ebx / 2 ^ 16 % 256,
        (insn 0).ebx / 2 ^ 24 % 256,
        (insn 0).edx % 256, (insn 0).edx / 2 ^ 8 % 256, (insn 0).edx / 2 ^ 16 % 256,
        (insn 0).edx / 2 ^ 24 % 256,
        (insn 0).ecx % 256, (insn 0).ecx / 2 ^ 8 % 256, (insn 0).ecx / 2 ^ 16 % 256,
        (insn 0).ecx / 2 ^ 24 % 256] := by
  have k0 := fun v => reg_byte_val v 0 (by decide)
  have k1 := fun v => reg_byte_val v 1 (by decide)
  have k2 := fun v => reg_byte_val v 2 (by decide)
  have k3 := fun v => reg_byte_val v 3 (by decide)
  simp only [Nat.mul_zero, Nat.mul_one, Nat.shiftRight_zero, Nat.pow_zero, Nat.div_one,
    Nat.reduceMul] at k0 k1 k2 k3
  simp only [cpuid_bytes, reg_bytes, if_true, List.cons_append, List.nil_append,
    List.take_succ_cons, List.take_zero, List.map_cons, List.map_nil, k0, k1, k2, k3]

/-- C5, as stated, fails: with raw `ebx`, `edx`, `ecx` spelling `GenuineIntel` and raw
`eax = 0x16`, the bytes read from the first byte of the returned view up to the first
NUL are the single byte `0x16` of `eax`, not the vendor identifier. -/
theorem cpuid_string_from_first_byte_is_eax :
    (cpuid (fun _ => ⟨0x16, 0x756e6547, 0x6c65746e, 0x49656e69⟩) 0
        ⟨List.replicate 33 0, rfl⟩).bytes.takeWhile (fun c => c ≠ 0) = [0x16] ∧
      (cpuid (fun _ => ⟨0x16, 0x756e6547, 0x6c65746e, 0x49656e69⟩) 0
        ⟨List.replicate 33 0, rfl⟩).bytes.takeWhile (fun c => c ≠ 0) ≠
        [0x47, 0x65, 0x6e, 0x75, 0x69, 0x6e, 0x65, 0x49, 0x6e, 0x74, 0x65, 0x6c] := by
  decide

/-- C5, amended: for function 0 the vendor identifier sits at index 4 of the returned
view.  Whenever the twelve little-endian bytes of raw `ebx`, raw `edx` and raw `ecx` are
non-NUL, the bytes read from index 4 up to the first NUL begin with those twelve bytes
in that order, and are exactly those twelve bytes when byte 16 of the union was NUL
before the call. -/
theorem cpuid_vendor_string_at_four (insn : Nat → Registers) (result : cpuid_result)
    (hb : ∀ k, k < 4 → (insn 0).ebx / 2 ^ (8 * k) % 256 ≠ 0)
    (hd : ∀ k, k < 4 → (insn 0).edx / 2 ^ (8 * k) % 256 ≠ 0)
    (hc : ∀ k, k < 4 → (insn 0).ecx / 2 ^ (8 * k) % 256 ≠ 0) :
    ((((cpuid insn 0 result).bytes.drop 4).takeWhile (fun c => c ≠ 0)).take 12).map Fin.val =
        [(insn 0).ebx % 256, (insn 0).ebx / 2 ^ 8 % 256, (insn 0).ebx / 2 ^ 16 % 256,
          (insn 0).ebx / 2 ^ 24 % 256,
          (insn 0).edx % 256, (insn 0).edx / 2 ^ 8 % 256, (insn 0).edx / 2 ^ 16 % 256,
          (insn 0).edx / 2 ^ 24 % 256,
          (insn 0).ecx % 256, (insn 0).ecx / 2 ^ 8 % 256, (insn 0).ecx / 2 ^ 16 % 256,
          (insn 0).ecx / 2 ^ 24 % 256] ∧
      (result.bytes[16]? = some 0 →
        (((cpuid insn 0 result).bytes.drop 4).takeWhile (fun c => c ≠ 0)).map Fin.val =
          [(insn 0).ebx % 256, (insn 0).ebx / 2 ^ 8 % 256, (insn 0).ebx / 2 ^ 16 % 256,
            (insn 0).ebx / 2 ^ 24 % 256,
            (insn 0).edx % 256, (insn 0).edx / 2 ^ 8 % 256, (insn 0).edx / 2 ^ 16 % 256,
            (insn 0).edx / 2 ^ 24 % 256,
            (insn 0).ecx % 256, (insn 0).ecx / 2 ^ 8 % 256, (insn 0).ecx / 2 ^ 16 % 256,
            (insn 0).ecx / 2 ^ 24 % 256]) := by
  have k0 := fun v => reg_byte_val v 0 (by decide)
  have k1 := fun v => reg_byte_val v 1 (by decide)
  have k2 := fun v => reg_byte_val v 2 (by decide)
  have k3 := fun v => reg_byte_val v 3 (by decide)
  have n0 := fun v => reg_byte_ne_zero v 0 (by decide)
  have n1 := fun v => reg_byte_ne_zero v 1 (by decide)
  have n2 := fun v => reg_byte_ne_zero v 2 (by decide)
  have n3 := fun v => reg_byte_ne_zero v 3 (by decide)
  have b0 := hb 0 (by decide)
  have b1 := hb 1 (by decide)
  have b2 := hb 2 (by decide)
  have b3 := hb 3 (by decide)
  have d0 := hd 0 (by decide)
  have d1 := hd 1 (by decide)
  have d2 := hd 2 (by decide)
  have d3 := hd 3 (by decide)
  have c0 := hc 0 (by decide)
  have c1 := hc 1 (by decide)
  have c2 := hc 2 (by decide)
  have c3 := hc 3 (by decide)
  simp only [Nat.mul_zero, Nat.mul_one, Nat.shiftRight_zero, Nat.pow_zero, Nat.div_one,
    Nat.reduceMul] at k0 k1 k2 k3 n0 n1 n2 n3 b0 b1 b2 b3 d0 d1 d2 d3 c0 c1 c2 c3
  have e : ((cpuid insn 0 result).bytes.drop 4).takeWhile (fun c => c ≠ 0) =
      reg_bytes (to_uint32 (insn 0).ebx) ++ (reg_bytes (to_uint32 (insn 0).edx) ++
        (reg_bytes (to_uint32 (insn 0).ecx) ++
          ((result.bytes.drop 16).set 16 0).takeWhile (fun c => c ≠ 0))) := by
    simp only [cpuid_bytes, reg_bytes, if_true, List.cons_append, List.nil_append,
      List.drop_succ_cons, List.drop_zero, List.takeWhile_cons,
      n0 _ b0, n1 _ b1, n2 _ b2, n3 _ b3, n0 _ d0, n1 _ d1, n2 _ d2, n3 _ d3,
      n0 _ c0, n1 _ c1, n2 _ c2, n3 _ c3, ne_eq, not_false_eq_true, decide_True]
  rw [e]
  constructor
  · simp only [reg_bytes, List.cons_append, List.nil_append, List.take_succ_cons,
      List.take_zero, List.map_cons, List.map_nil, k0, k1, k2, k3]
  · intro h16
    have t : ((result.bytes.drop 16).set 16 0).takeWhile (fun c => c ≠ 0) = [] := by
      rcases ht : result.bytes.drop 16 with _ | ⟨y, t⟩
      · rfl
      · have hy : (result.bytes.drop 16)[0]? = some 0 := by
          rw [List.getElem?_drop]
          exact h16
        rw [ht] at hy
        simp only [List.getElem?_cons_zero, Option.some.injEq] at hy
        simp [hy]
    rw [t]
    simp only [reg_bytes, List.cons_append, List.nil_append, List.append_nil,
      List.map_cons, List.map_nil, k0, k1, k2, k3]

theorem cpuid_vendor_string_at_four_witness :
    ((((cpuid (fun _ => ⟨0x16, 0x756e6547, 0x6c65746e, 0x49656e69⟩) 0
          ⟨List.replicate 33 0, rfl⟩).bytes.drop 4).takeWhile
            (fun c => c ≠ 0)).take 12).map Fin.val =
        [0x47, 0x65, 0x6e, 0x75, 0x69, 0x6e, 0x65, 0x49, 0x6e, 0x74, 0x65, 0x6c] ∧
      (((cpuid (fun _ => ⟨0x16, 0x756e6547, 0x6c65746e, 0x49656e69⟩) 0
          ⟨List.replicate 33 0, rfl⟩).bytes.drop 4).takeWhile
            (fun c => c ≠ 0)).map Fin.val =
        [0x47, 0x65, 0x6e, 0x75, 0x69, 0x6e, 0x65, 0x49, 0x6e, 0x74, 0x65, 0x6c] :=
  ⟨(cpuid_vendor_string_at_four (fun _ => ⟨0x16, 0x756e6547, 0x6c65746e, 0x49656e69⟩)
      ⟨List.replicate 33 0, rfl⟩ (by decide) (by decide) (by decide)).1,
    (cpuid_vendor_string_at_four (fun _ => ⟨0x16, 0x756e6547, 0x6c65746e, 0x49656e69⟩)
      ⟨List.replicate 33 0, rfl⟩ (by decide) (by decide) (by decide)).2 (by decide)⟩

/-- In either branch `unaligned_store32` is four byte assignments at `ptr .. ptr + 3`. -/
theorem store32_sets (le : Bool) {mem : List uint8_t} {ptr : Nat} (value : Nat)
    (h : ptr + 4 ≤ mem.length) :
    ∃ w x y z, unaligned_store32 le mem ptr value =
      some ((((mem.set ptr w).set (ptr + 1) x).set (ptr + 2) y).set (ptr + 3) z) := by
  cases le
  · exact ⟨_, _, _, _, store32_eq false value h⟩
  · exact ⟨_, _, _, _, store32_eq true value h⟩

/-- In either branch `unaligned_store16` is two byte assignments at `ptr` and `ptr + 1`. -/
theorem store16_sets (le : Bool) (u : Unspecified) {mem : List uint8_t} {ptr : Nat}
    (value : Nat) (h : ptr + 2 ≤ mem.length) :
    ∃ x y, unaligned_store16 le u mem ptr value =
      some ((mem.set ptr x).set (ptr + 1) y) := by
  have h0 : ptr < mem.length := by omega
  have h1 : ptr + 1 < mem.length := by omega
  cases le
  · refine ⟨to_uint8 (u.shr_wide value 84 &&& 0xff), to_uint8 ((value >>> 25) &&& 0xff), ?_⟩
    simp [unaligned_store16, poke, h0, h1]
  · exact ⟨_, _, store16_le_eq u value h⟩

/-- `unaligned_load32` at `q` depends only on the bytes at `q .. q + 3`. -/
theorem load32_congr (le : Bool) {m n : List uint8_t} {q : Nat}
    (h : ∀ i, q ≤ i → i < q + 4 → m[i]? = n[i]?) :
    unaligned_load32 le m q = unaligned_load32 le n q := by
  simp only [unaligned_load32, h q (by omega) (by omega), h (q + 1) (by omega) (by omega),
    h (q + 2) (by omega) (by omega), h (q + 3) (by omega) (by omega)]

/-- `unaligned_load16` at `q` depends only on the bytes at `q` and `q + 1`. -/
theorem load16_congr (le : Bool) (u : Unspecified) {m n : List uint8_t} {q : Nat}
    (h : ∀ i, q ≤ i → i < q + 2 → m[i]? = n[i]?) :
    unaligned_load16 le u m q = unaligned_load16 le u n q := by
  simp only [unaligned_load16, h q (by omega) (by omega), h (q + 1) (by omega) (by omega)]

/-- C11: the store helpers touch only their own bytes.  In either branch, with the
stored range inside the buffer, `unaligned_store32` keeps the length and every byte
outside `p .. p + 3`, and `unaligned_store16` keeps the length and every byte outside
`p .. p + 1`; a 32- or 16-bit load at a range disjoint from the stored range returns
what it returned before the store. -/
theorem store_frame (le : Bool) (u : Unspecified) (b : List uint8_t) (p v w : Nat) :
    (p + 4 ≤ b.length →
      ∃ b', unaligned_store32 le b p v = some b' ∧ b'.length = b.length ∧
        (∀ i, i < p ∨ p + 4 ≤ i → b'[i]? = b[i]?) ∧
        (∀ e q, q + 4 ≤ p ∨ p + 4 ≤ q →
          unaligned_load32 e b' q = unaligned_load32 e b q) ∧
        (∀ e q, q + 2 ≤ p ∨ p + 4 ≤ q →
          unaligned_load16 e u b' q = unaligned_load16 e u b q)) ∧
    (p + 2 ≤ b.length →
      ∃ b', unaligned_store16 le u b p w = some b' ∧ b'.length = b.length ∧
        (∀ i, i < p ∨ p + 2 ≤ i → b'[i]? = b[i]?) ∧
        (∀ e q, q + 4 ≤ p ∨ p + 2 ≤ q →
          unaligned_load32 e b' q = unaligned_load32 e b q) ∧
        (∀ e q, q + 2 ≤ p ∨ p + 2 ≤ q →
          unaligned_load16 e u b' q = unaligned_load16 e u b q)) := by
  constructor
  · intro h
    obtain ⟨w, x, y, z, hs⟩ := store32_sets le v h
    have hf : ∀ i, i < p ∨ p + 4 ≤ i →
        ((((b.set p w).set (p + 1) x).set (p + 2) y).set (p + 3) z)[i]? = b[i]? := by
      intro i hi
      rw [List.getElem?_set_ne (by omega), List.getElem?_set_ne (by omega),
        List.getElem?_set_ne (by omega), List.getElem?_set_ne (by omega)]
    refine ⟨_, hs, by simp, hf, ?_, ?_⟩
    · intro e q hq
      exact load32_congr e fun i h1 h2 => hf i (by omega)
    · intro e q hq
      exact load16_congr e u fun i h1 h2 => hf i (by omega)
  · intro h
    obtain ⟨x, y, hs⟩ := store16_sets le u w h
    have hf : ∀ i, i < p ∨ p + 2 ≤ i → ((b.set p x).set (p + 1) y)[i]? = b[i]? := by
      intro i hi
      rw [List.getElem?_set_ne (by omega), List.getElem?_set_ne (by omega)]
    refine ⟨_, hs, by simp, hf, ?_, ?_⟩
    · intro e q hq
      exact load32_congr e fun i h1 h2 => hf i (by omega)
    · intro e q hq
      exact load16_congr e u fun i h1 h2 => hf i (by omega)

theorem store_frame_witness :
    (∃ b', unaligned_store32 true [1, 2, 3, 4, 5, 6, 7, 8] 2 0xdeadbeef = some b' ∧
        b'.length = [1, 2, 3, 4, 5, 6, 7, (8 : uint8_t)].length ∧
        (∀ i, i < 2 ∨ 2 + 4 ≤ i → b'[i]? = [1, 2, 3, 4, 5, 6, 7, (8 : uint8_t)][i]?) ∧
        (∀ e q, q + 4 ≤ 2 ∨ 2 + 4 ≤ q →
          unaligned_load32 e b' q = unaligned_load32 e [1, 2, 3, 4, 5, 6, 7, 8] q) ∧
        (∀ e q, q + 2 ≤ 2 ∨ 2 + 4 ≤ q →
          unaligned_load16 e Unspecified.plain b' q =
            unaligned_load16 e Unspecified.plain [1, 2, 3, 4, 5, 6, 7, 8] q)) ∧
      (∃ b', unaligned_store16 true Unspecified.plain [1, 2, 3, 4, 5, 6, 7, 8] 2 0xbeef =
          some b' ∧
        b'.length = [1, 2, 3, 4, 5, 6, 7, (8 : uint8_t)].length ∧
        (∀ i, i < 2 ∨ 2 + 2 ≤ i → b'[i]? = [1, 2, 3, 4, 5, 6, 7, (8 : uint8_t)][i]?) ∧
        (∀ e q, q + 4 ≤ 2 ∨ 2 + 2 ≤ q →
          unaligned_load32 e b' q = unaligned_load32 e [1, 2, 3, 4, 5, 6, 7, 8] q) ∧
        (∀ e q, q + 2 ≤ 2 ∨ 2 + 2 ≤ q →
          unaligned_load16 e Unspecified.plain b' q =
            unaligned_load16 e Unspecified.plain [1, 2, 3, 4, 5, 6, 7, 8] q)) :=
  ⟨(store_frame true Unspecified.plain [1, 2, 3, 4, 5, 6, 7, 8] 2 0xdeadbeef 0xbeef).1
      (by decide),
    (store_frame true Unspecified.plain [1, 2, 3, 4, 5, 6, 7, 8] 2 0xdeadbeef 0xbeef).2
      (by decide)⟩

/-- Writing back the byte already at index `i` leaves the list as it was. -/
theorem set_same (l : List uint8_t) (i : Nat) (x : uint8_t) (h : l[i]? = some x) :
    l.set i x = l := by
  apply List.ext_getElem?
  intro j
  rw [List.getElem?_set]
  by_cases hij : i = j
  · subst hij
    have hl : i < l.length := by
      by_contra hn
      rw [List.getElem?_eq_none (by omega)] at h
      exact Option.noConfusion h
    simp [hl, h]
  · simp [hij]

/-- A number is converted to the byte whose value it has modulo 256. -/
theorem to_uint8_eq (x : uint8_t) (n : Nat) (h : n % 256 = x.val) : to_uint8 n = x :=
  Fin.ext h

/-- The bytes of a little-endian sum of four bytes are those four bytes. -/
theorem split32_le (a b c d : uint8_t) :
    to_uint8 ((a.val + 2 ^ 8 * b.val + 2 ^ 16 * c.val + 2 ^ 24 * d.val) % 256) = a ∧
    to_uint8 ((a.val + 2 ^ 8 * b.val + 2 ^ 16 * c.val + 2 ^ 24 * d.val) / 2 ^ 8 % 256) = b ∧
    to_uint8 ((a.val + 2 ^ 8 * b.val + 2 ^ 16 * c.val + 2 ^ 24 * d.val) / 2 ^ 16 % 256) = c ∧
    to_uint8 ((a.val + 2 ^ 8 * b.val + 2 ^ 16 * c.val + 2 ^ 24 * d.val) / 2 ^ 24 % 256) =
      d := by
  have la := a.isLt
  have lb := b.isLt
  have lc := c.isLt
  have ld := d.isLt
  refine ⟨to_uint8_eq _ _ ?_, to_uint8_eq _ _ ?_, to_uint8_eq _ _ ?_, to_uint8_eq _ _ ?_⟩ <;>
    omega

/-- The bytes of a little-endian sum of two bytes are those two bytes. -/
theorem split16_le (a b : uint8_t) :
    to_uint8 ((a.val + 2 ^ 8 * b.val) % 256) = a ∧
    to_uint8 ((a.val + 2 ^ 8 * b.val) / 2 ^ 8 % 256) = b := by
  have la := a.isLt
  have lb := b.isLt
  refine ⟨to_uint8_eq _ _ ?_, to_uint8_eq _ _ ?_⟩ <;> omega

/-- C13: in the little-endian branch, storing back what was loaded leaves the buffer
unchanged: with four bytes available at `p`, `unaligned_load32` returns a value whose
`unaligned_store32` at `p` gives the same buffer, and likewise for the 16-bit helpers
with two bytes available. -/
theorem store_load_identity_le (u : Unspecified) (b : List uint8_t) (p : Nat) :
    (p + 4 ≤ b.length →
      ∃ v, unaligned_load32 true b p = some v ∧ unaligned_store32 true b p v = some b) ∧
    (p + 2 ≤ b.length →
      ∃ v, unaligned_load16 true u b p = some v ∧
        unaligned_store16 true u b p v = some b) := by
  constructor
  · intro h
    have h0 : b[p]? = some b[p] := List.getElem?_eq_getElem _
    have h1 : b[p + 1]? = some b[p + 1] := List.getElem?_eq_getElem _
    have h2 : b[p + 2]? = some b[p + 2] := List.getElem?_eq_getElem _
    have h3 : b[p + 3]? = some b[p + 3] := List.getElem?_eq_getElem _
    refine ⟨_, load32_eq true h0 h1 h2 h3, ?_⟩
    rw [store32_eq true _ h]
    obtain ⟨e0, e1, e2, e3⟩ := split32_le b[p] b[p + 1] b[p + 2] b[p + 3]
    simp only [if_true, e0, e1, e2, e3]
    rw [set_same b p _ h0, set_same b (p + 1) _ h1, set_same b (p + 2) _ h2,
      set_same b (p + 3) _ h3]
  · intro h
    have h0 : b[p]? = some b[p] := List.getElem?_eq_getElem _
    have h1 : b[p + 1]? = some b[p + 1] := List.getElem?_eq_getElem _
    refine ⟨_, load16_le_eq u h0 h1, ?_⟩
    rw [store16_le_eq u _ h]
    obtain ⟨e0, e1⟩ := split16_le b[p] b[p + 1]
    rw [e0, e1, set_same b p _ h0, set_same b (p + 1) _ h1]

theorem store_load_identity_le_witness :
    (∃ v, unaligned_load32 true [9, 8, 7, 6, 5, 4] 1 = some v ∧
        unaligned_store32 true [9, 8, 7, 6, 5, 4] 1 v = some [9, 8, 7, 6, 5, 4]) ∧
      (∃ v, unaligned_load16 true Unspecified.plain [9, 8, 7, 6, 5, 4] 1 = some v ∧
        unaligned_store16 true Unspecified.plain [9, 8, 7, 6, 5, 4] 1 v =
          some [9, 8, 7, 6, 5, 4]) :=
  ⟨(store_load_identity_le Unspecified.plain [9, 8, 7, 6, 5, 4] 1).1 (by decide),
    (store_load_identity_le Unspecified.plain [9, 8, 7, 6, 5, 4] 1).2 (by decide)⟩

/-- C14: in the little-endian branch the 16- and 32-bit helpers agree on layout.  After
`unaligned_store32` of a 32-bit `v` at `p`, `unaligned_load16` at `p` returns
`v mod 2^16` and at `p + 2` returns `v div 2^16`; after `unaligned_store16` of `lo` at
`p` and of `hi` at `p + 2`, `unaligned_load32` at `p` returns `lo + 2^16 * hi`. -/
theorem layout_agreement_le (u : Unspecified) (b : List uint8_t) (p v lo hi : Nat)
    (hv : v < 2 ^ 32) (hlo : lo < 2 ^ 16) (hhi : hi < 2 ^ 16) (hp : p + 4 ≤ b.length) :
    (∃ b', unaligned_store32 true b p v = some b' ∧
        unaligned_load16 true u b' p = some (v % 2 ^ 16) ∧
        unaligned_load16 true u b' (p + 2) = some (v / 2 ^ 16)) ∧
      (∃ b' b'', unaligned_store16 true u b p lo = some b' ∧
        unaligned_store16 true u b' (p + 2) hi = some b'' ∧
        unaligned_load32 true b'' p = some (lo + 2 ^ 16 * hi)) := by
  constructor
  · refine ⟨_, store32_eq true v hp, ?_, ?_⟩
    · rw [load16_le_eq u (a := to_uint8 (v % 256)) (b := to_uint8 (v / 2 ^ 8 % 256))]
      · simp only [to_uint8_val, Option.some.injEq]
        omega
      all_goals simp [List.getElem?_set]
      all_goals omega
    · rw [load16_le_eq u (a := to_uint8 (v / 2 ^ 16 % 256))
        (b := to_uint8 (v / 2 ^ 24 % 256))]
      · simp only [to_uint8_val, Option.some.injEq]
        omega
      all_goals simp [List.getElem?_set]
      all_goals omega
  · have h1 : p + 2 ≤ b.length := by omega
    have h2 : p + 2 + 2 ≤
        ((b.set p (to_uint8 (lo % 256))).set (p + 1) (to_uint8 (lo / 2 ^ 8 % 256))).length := by
      simp only [List.length_set]
      omega
    refine ⟨_, _, store16_le_eq u lo h1, store16_le_eq u hi h2, ?_⟩
    rw [load32_eq true (a := to_uint8 (lo % 256)) (b := to_uint8 (lo / 2 ^ 8 % 256))
      (c := to_uint8 (hi % 256)) (d := to_uint8 (hi / 2 ^ 8 % 256))]
    · simp only [to_uint8_val, if_true, Option.some.injEq]
      omega
    all_goals
      have n0 : ¬ (p + 2 + 1 = p) := by omega
      have l0 : p < b.length := by omega
      simp [List.getElem?_set, n0, l0]
    all_goals omega

theorem layout_agreement_le_witness :
    (∃ b', unaligned_store32 true [0, 0, 0, 0, 0, 0] 1 0xdeadbeef = some b' ∧
        unaligned_load16 true Unspecified.plain b' 1 = some (0xdeadbeef % 2 ^ 16) ∧
        unaligned_load16 true Unspecified.plain b' (1 + 2) = some (0xdeadbeef / 2 ^ 16)) ∧
      (∃ b' b'', unaligned_store16 true Unspecified.plain [0, 0, 0, 0, 0, 0] 1 0xbeef =
          some b' ∧
        unaligned_store16 true Unspecified.plain b' (1 + 2) 0xdead = some b'' ∧
        unaligned_load32 true b'' 1 = some (0xbeef + 2 ^ 16 * 0xdead)) :=
  layout_agreement_le Unspecified.plain [0, 0, 0, 0, 0, 0] 1 0xdeadbeef 0xbeef 0xdead
    (by decide) (by decide) (by decide) (by decide)

/-- A string read up to the first NUL is no longer than the index of any NUL byte. -/
theorem takeWhile_length_le (l : List uint8_t) (n : Nat) (h : l[n]? = some 0) :
    (l.takeWhile (fun c => c ≠ 0)).length ≤ n := by
  induction l generalizing n with
  | nil => simp
  | cons x l ih =>
    cases n with
    | zero =>
      simp only [List.getElem?_cons_zero, Option.some.injEq] at h
      simp [h]
    | succ n =>
      simp only [List.getElem?_cons_succ] at h
      rw [List.takeWhile_cons]
      split
      · simp only [List.length_cons]
        exact Nat.succ_le_succ (ih n h)
      · simp

/-- An assignment at index `n` leaves the first `m ≤ n` elements as they are. -/
theorem take_set_of_le (a : uint8_t) {n m : Nat} (l : List uint8_t) (h : m ≤ n) :
    (l.set n a).take m = l.take m := by
  apply List.ext_getElem?
  intro i
  by_cases hi : i < m
  · have hne : n ≠ i := by omega
    simp [List.getElem?_take, hi, List.getElem?_set_ne hne]
  · simp [List.getElem?_take, hi]

/-- After `result->bytes[32] = 0` the byte at index 32 is NUL. -/
theorem set_bytes_last (r : cpuid_result) : (r.set_bytes 32 0).bytes[32]? = some 0 := by
  simp [cpuid_result.set_bytes, r.size]

/-- The registers stored in the union, with no assumption on the raw values. -/
theorem cpuid_regs_stored (insn : Nat → Registers) (function : Nat) (result : cpuid_result) :
    (cpuid insn function result).regs =
      ⟨to_uint32 (insn function).eax, to_uint32 (insn function).ebx,
        to_uint32 (if function = 0 then (insn function).edx else (insn function).ecx),
        to_uint32 (if function = 0 then (insn function).ecx else (insn function).edx)⟩ := by
  have k : ∀ v : Nat, (to_uint8 (to_uint32 v)).val + 256 * (to_uint8 (to_uint32 v >>> 8)).val +
      65536 * (to_uint8 (to_uint32 v >>> 16)).val +
      16777216 * (to_uint8 (to_uint32 v >>> 24)).val = to_uint32 v := by
    intro v
    simp only [to_uint8_val, to_uint32, Nat.shiftRight_eq_div_pow]
    omega
  simp only [cpuid_result.regs, cpuid_bytes, load_field32, reg_bytes]
  simp [k]

/-- C12: after `cpuid`, for every function code, raw registers and prior content of the
union, `bytes[32]` is NUL, so the string read from the returned pointer has length at
most 32; the write of `bytes[32]` leaves the registers stored in bytes 0..15 as they
are, and bytes 16..31 keep the content they had before the call. -/
theorem cpuid_terminator (insn : Nat → Registers) (function : Nat) (result : cpuid_result) :
    (cpuid insn function result).bytes[32]? = some 0 ∧
      ((cpuid insn function result).bytes.takeWhile (fun c => c ≠ 0)).length ≤ 32 ∧
      (∀ r : cpuid_result, (r.set_bytes 32 0).bytes.take 16 = r.bytes.take 16 ∧
        (r.set_bytes 32 0).regs = r.regs) ∧
      (cpuid insn function result).regs =
        ⟨to_uint32 (insn function).eax, to_uint32 (insn function).ebx,
          to_uint32 (if function = 0 then (insn function).edx else (insn function).ecx),
          to_uint32 (if function = 0 then (insn function).ecx else (insn function).edx)⟩ ∧
      ((cpuid insn function result).bytes.drop 16).take 16 =
        (result.bytes.drop 16).take 16 := by
  have h32 : (cpuid insn function result).bytes[32]? = some 0 :=
    set_bytes_last _
  refine ⟨h32, takeWhile_length_le _ 32 h32, ?_, cpuid_regs_stored insn function result, ?_⟩
  · intro r
    refine ⟨List.take_set_of_lt _ _ (by decide), ?_⟩
    simp [cpuid_result.regs, cpuid_result.set_bytes, load_field32, List.getElem?_set]
  · simp only [cpuid_bytes, reg_bytes, List.cons_append, List.nil_append,
      List.drop_succ_cons, List.drop_zero]
    exact take_set_of_le _ _ (by decide)

/-- C15: in the little-endian branch the helpers of `OnceC.h` and the helpers of the
same names in `CHypervisorKit.h` agree: for every buffer, offset and value the two
loads return the same result and the two stores give the same buffer (and fail on the
same inputs). -/
theorem onceC_helpers_agree (u : Unspecified) (mem : List uint8_t) (ptr value : Nat) :
    OnceC.unaligned_load32 true mem ptr = unaligned_load32 true mem ptr ∧
      OnceC.unaligned_load16 true u mem ptr = unaligned_load16 true u mem ptr ∧
      OnceC.unaligned_store32 true mem ptr value = unaligned_store32 true mem ptr value ∧
      OnceC.unaligned_store16 true u mem ptr value =
        unaligned_store16 true u mem ptr value :=
  ⟨rfl, rfl, rfl, rfl⟩

end CHypervisorKit
